import Mathlib

/-!
Shallow embedding of `src/app.py` (CrunchyrollToAnilist).

The program reconciles Crunchyroll watch history against AniList progress:
* `make_request` — HTTP with bounded retry on HTTP 429 (fixed `delay` sleep);
* `get_distinct_series_latest_completed` — reduces the raw history to one
  "latest fully watched episode" record per series title;
* `get_anilist_media_and_progress` — one batched aliased GraphQL query
  (aliases `media0`, `media1`, ...; variables `title0`, `title1`, ...);
* `sync_crunchyroll_to_anilist_combined` — builds `updates_to_apply`
  (a dict keyed by AniList media id) and hands it to
  `batch_update_anilist_progress`.

JSON dictionaries become structures with `Option` fields (a missing key is
`none`); Python dicts that are used as insertion-ordered maps become
association lists with insert-or-overwrite-in-place semantics; the network
becomes an explicit oracle argument, and observable effects (sleeps, issued
requests, logged warnings) are returned as data.
-/

namespace CrToAnilist

/-- `panel.episode_metadata` of a Crunchyroll history entry: both keys may be
missing in the raw feed (`metadata.get("series_title")`,
`metadata.get("episode_number")`). -/
structure EpisodeMetadata where
  series_title : Option String
  episode_number : Option Int
  deriving Repr, DecidableEq

/-- `panel` of a history entry; `episode_metadata` may be missing. -/
structure Panel where
  episode_metadata : Option EpisodeMetadata
  deriving Repr, DecidableEq

/-- One element of the Crunchyroll watch-history feed. `fully_watched` sits at
the top level of the entry and may be missing (`entry.get("fully_watched", False)`). -/
structure HistoryEntry where
  panel : Option Panel
  fully_watched : Option Bool
  deriving Repr, DecidableEq

/-- `entry.get("panel", {}).get("episode_metadata", {})`: each missing level
degrades to an empty dict, i.e. to a metadata record with both fields absent. -/
def HistoryEntry.metadata (e : HistoryEntry) : EpisodeMetadata :=
  match e.panel with
  | none => ⟨none, none⟩
  | some p => p.episode_metadata.getD ⟨none, none⟩

/-- The sort key used in `get_distinct_series_latest_completed`:
`e.get("panel", {}).get("episode_metadata", {}).get("episode_number", 0)`. -/
def entryEpisodeKey (e : HistoryEntry) : Int :=
  e.metadata.episode_number.getD 0

/-- `entry.get("fully_watched", False)`: a missing flag counts as `False`. -/
def isFullyWatched (e : HistoryEntry) : Bool :=
  e.fully_watched.getD false

/-- The ingestion filter of the grouping loop: an entry is grouped under title
`t` iff its title is present and non-empty (`not title` is Python-falsy for
both `None` and `""`) and its episode number is present
(`if not title or episode is None: continue`). -/
def ingestKey (e : HistoryEntry) : Option String :=
  match e.metadata.series_title, e.metadata.episode_number with
  | some t, some _ => if t = "" then none else some t
  | _, _ => none

/-- `series_entries.setdefault(title, []).append(entry)` on an
insertion-ordered dict: append to the existing group in place, or add a new
group at the end. -/
def insertEntry (m : List (String × List HistoryEntry)) (t : String)
    (e : HistoryEntry) : List (String × List HistoryEntry) :=
  match m with
  | [] => [(t, [e])]
  | (k, v) :: rest =>
    if k = t then (k, v ++ [e]) :: rest else (k, v) :: insertEntry rest t e

/-- The grouping loop of `get_distinct_series_latest_completed`: build the
`series_entries` dict in feed order, skipping unkeyed entries. -/
def groupBySeries (history : List HistoryEntry) :
    List (String × List HistoryEntry) :=
  history.foldl (fun m e =>
    match ingestKey e with
    | none => m
    | some t => insertEntry m t e) []

/-- Stable insert used by `sortedByEpisodeDesc`: `e` goes before the first
element whose key is not ≥ `e`'s, so equal keys keep their original order. -/
def insertDesc (e : HistoryEntry) : List HistoryEntry → List HistoryEntry
  | [] => [e]
  | x :: xs =>
    if entryEpisodeKey x ≤ entryEpisodeKey e then e :: x :: xs
    else x :: insertDesc e xs

/-- `sorted(entries, key=episode_number, reverse=True)`: Python's `sorted` is a
stable sort; a stable insertion sort on the same key produces the identical
list. -/
def sortedByEpisodeDesc : List HistoryEntry → List HistoryEntry
  | [] => []
  | e :: es => insertDesc e (sortedByEpisodeDesc es)

/-- One element of the `distinct_series` list: series title, latest fully
watched episode number, and the chosen history entry. -/
structure SeriesProgress where
  series_title : String
  episode_number : Int
  entry : HistoryEntry
  deriving Repr, DecidableEq

/-- The per-series body of the reduction loop: sort the group's entries by
episode number descending, take the first fully watched one
(`next((entry for entry in sorted_entries if entry.get("fully_watched", False)), None)`);
`None` means the series is dropped with a warning. Inside a group every entry
has a present episode number (the ingestion filter guarantees it), so the
direct indexing `latest_completed["panel"]["episode_metadata"]["episode_number"]`
coincides with the sort key. -/
def reduceGroup (title : String) (entries : List HistoryEntry) :
    Option SeriesProgress :=
  match (sortedByEpisodeDesc entries).find? isFullyWatched with
  | some e => some ⟨title, entryEpisodeKey e, e⟩
  | none => none

/-- `get_distinct_series_latest_completed`: the `distinct_series` list, in
group insertion order. -/
def get_distinct_series_latest_completed (history : List HistoryEntry) :
    List SeriesProgress :=
  (groupBySeries history).filterMap (fun p => reduceGroup p.1 p.2)

/-- The titles for which the reduction loop logs
`"No fully watched episode found for series: ..."`. -/
def noFullyWatchedWarnings (history : List HistoryEntry) : List String :=
  (groupBySeries history).filterMap (fun p =>
    match reduceGroup p.1 p.2 with
    | some _ => none
    | none => some p.1)

/-- What one HTTP attempt yields: a response with a status code and a parsed
value, or a `requests.exceptions.RequestException`. -/
inductive NetResult (α : Type) where
  | response (status : Nat) (value : α)
  | exception
  deriving Repr, DecidableEq

/-- Observable outcome of `make_request`: the returned value (if any), the log
of sleeps performed (each one `delay` seconds), the number of HTTP attempts
made, and whether the terminal `"Failed after multiple retries."` was logged. -/
structure RequestTrace (α : Type) where
  result : Option α
  sleepLog : List Nat
  attemptsMade : Nat
  exhaustedRetriesLogged : Bool
  deriving Repr, DecidableEq

/-- The `for attempt in range(1, retries + 1)` loop of `make_request`.
`net attempt` is what the network does on that attempt. HTTP 429 sleeps
`delay` seconds and retries; any other non-2xx status, and any transport
exception, returns `None` immediately; falling off the loop logs the terminal
failure and returns `None`. -/
def make_request_go (net : Nat → NetResult α) (delay : Nat) :
    Nat → Nat → List Nat → RequestTrace α
  | attempt, 0, sleeps => ⟨none, sleeps, attempt - 1, true⟩
  | attempt, remaining + 1, sleeps =>
    match net attempt with
    | .exception => ⟨none, sleeps, attempt, false⟩
    | .response status v =>
      if status = 429 then
        make_request_go net delay (attempt + 1) remaining (sleeps ++ [delay])
      else if 200 ≤ status ∧ status < 300 then ⟨some v, sleeps, attempt, false⟩
      else ⟨none, sleeps, attempt, false⟩

/-- `make_request(method, url, ..., retries, delay)`, with the network
abstracted to an oracle from attempt number to outcome. The source defaults
are `retries=3, delay=300`. -/
def make_request (net : Nat → NetResult α) (retries : Nat) (delay : Nat) :
    RequestTrace α :=
  make_request_go net delay 1 retries []

/-- AniList `mediaListEntry`: `progress` may be missing. -/
structure MediaListEntry where
  progress : Option Int
  deriving Repr, DecidableEq

/-- One AniList `Media` object of the batched query response. `id` is
`media.get("id")`, so absent keys are kept as `none`. -/
structure Media where
  id : Option Int
  mediaListEntry : Option MediaListEntry
  deriving Repr, DecidableEq

/-- `(media.get("mediaListEntry") or {}).get("progress", 0)`: a missing or
null `mediaListEntry`, and a missing `progress`, all default to 0. -/
def Media.currentProgress (m : Media) : Int :=
  match m.mediaListEntry with
  | none => 0
  | some e => e.progress.getD 0

/-- The GraphQL variables built by `get_anilist_media_and_progress`:
`variables[f"title{i}"] = series["series_title"]`, one per input series, in
order. -/
def buildAnilistQueryVars (series_list : List SeriesProgress) :
    List (String × String) :=
  series_list.enum.map (fun p => ("title" ++ toString p.1, p.2.series_title))

/-- What `get_anilist_media_and_progress` observably produces: the alias
table of the response (`data["data"]`, position `i` holding alias `media{i}`,
`none` for a null match), the list of batched requests it issued, and whether
`"Unexpected response format"` was logged. -/
structure ResolveResult where
  data : List (Option Media)
  requestsIssued : List (List (String × String))
  unexpectedFormatLogged : Bool

/-- `get_anilist_media_and_progress(series_list, retries, delay)`: build one
aliased query over all titles, issue it through `make_request` exactly once,
and parse. A response that parses but has no top-level `"data"` key (modelled
as value `none`) is logged and degrades to the empty mapping `{}` (here `[]`);
a failed request also yields `{}`. -/
def get_anilist_media_and_progress
    (net : List (String × String) → Nat → NetResult (Option (List (Option Media))))
    (retries : Nat) (delay : Nat) (series_list : List SeriesProgress) :
    ResolveResult :=
  match (make_request (net (buildAnilistQueryVars series_list))
      retries delay).result with
  | some (some d) => ⟨d, [buildAnilistQueryVars series_list], false⟩
  | some none => ⟨[], [buildAnilistQueryVars series_list], true⟩
  | none => ⟨[], [buildAnilistQueryVars series_list], false⟩

/-- `anilist_data.get(f"media{i}")` with the response's alias table laid out
by position: a missing alias and a null match are both Python-falsy, hence
both `none`. -/
def aliasGet (data : List (Option Media)) (i : Nat) : Option Media :=
  (data[i]?).getD none

/-- Python dict assignment `d[k] = v` on an insertion-ordered dict rendered as
an association list: overwrite in place, or append a new key at the end. -/
def dictInsert (m : List (Option Int × Int)) (k : Option Int) (v : Int) :
    List (Option Int × Int) :=
  match m with
  | [] => [(k, v)]
  | (k', v') :: rest =>
    if k' = k then (k, v) :: rest else (k', v') :: dictInsert rest k v

/-- Dict lookup on the association list. -/
def dictLookup (m : List (Option Int × Int)) (k : Option Int) : Option Int :=
  match m with
  | [] => none
  | (k', v) :: rest => if k' = k then some v else dictLookup rest k

/-- The reconciliation loop of `sync_crunchyroll_to_anilist_combined`:
`for i, series in enumerate(distinct_series)`, look up alias `media{i}`; if
resolved and `crunchyroll_episode > current_progress`, do
`updates_to_apply[anime_id] = crunchyroll_episode`; otherwise skip (with an
informational or warning log). -/
def updatesLoop (data : List (Option Media)) :
    Nat → List (Option Int × Int) → List SeriesProgress →
    List (Option Int × Int)
  | _, upd, [] => upd
  | i, upd, s :: rest =>
    match aliasGet data i with
    | none => updatesLoop data (i + 1) upd rest
    | some m =>
      if s.episode_number > m.currentProgress then
        updatesLoop data (i + 1) (dictInsert upd m.id s.episode_number) rest
      else
        updatesLoop data (i + 1) upd rest

/-- The finished `updates_to_apply` dict of
`sync_crunchyroll_to_anilist_combined`, keyed by AniList media id. -/
def updates_to_apply (distinct_series : List SeriesProgress)
    (data : List (Option Media)) : List (Option Int × Int) :=
  updatesLoop data 0 [] distinct_series

/-- Spec-side description of what one key of `updates_to_apply` ends up
holding: scanning `distinct_series` by position, the episode number of the
LAST record that resolves to a media with id `k` and strictly exceeds that
media's current progress (`none` if no record does). This is the
last-write-wins semantics of repeated `updates_to_apply[anime_id] = ...`. -/
def lastEligibleTarget (data : List (Option Media)) :
    Nat → List SeriesProgress → Option Int → Option Int
  | _, [], _ => none
  | i, s :: rest, k =>
    match lastEligibleTarget data (i + 1) rest k with
    | some v => some v
    | none =>
      match aliasGet data i with
      | none => none
      | some m =>
        if m.id = k ∧ s.episode_number > m.currentProgress then
          some s.episode_number
        else none

/-- Outcome reported by `batch_update_anilist_progress`: the empty-input
short-circuit (`"No updates needed. All anime are already up to date."`), a
successful batched mutation, or a failure (`make_request` returned `None`). -/
inductive BatchOutcome (α : Type) where
  | noUpdatesNeeded
  | applied (resp : α)
  | failed
  deriving Repr, DecidableEq

/-- Observable result of `batch_update_anilist_progress`: the outcome plus the
number of HTTP attempts actually performed on the network. -/
structure BatchResult (α : Type) where
  outcome : BatchOutcome α
  networkAttempts : Nat
  deriving Repr, DecidableEq

/-- The mutation variables built by `batch_update_anilist_progress`:
`variables[f"mediaId{i}"] = media_id; variables[f"progress{i}"] = progress`
per update, in dict order. -/
def buildMutationVars (anime_updates : List (Option Int × Int)) :
    List (String × Option Int) :=
  anime_updates.enum.foldr (fun p acc =>
    ("mediaId" ++ toString p.1, p.2.1) ::
    ("progress" ++ toString p.1, some p.2.2) :: acc) []

/-- `batch_update_anilist_progress(anime_updates, retries, delay)`: an empty
dict short-circuits with the "no updates needed" log and no network activity;
otherwise one batched aliased mutation goes through `make_request`. -/
def batch_update_anilist_progress
    (net : List (String × Option Int) → Nat → NetResult α)
    (retries : Nat) (delay : Nat) (anime_updates : List (Option Int × Int)) :
    BatchResult α :=
  if anime_updates.isEmpty then ⟨.noUpdatesNeeded, 0⟩
  else
    let tr := make_request (net (buildMutationVars anime_updates)) retries delay
    match tr.result with
    | some r => ⟨.applied r, tr.attemptsMade⟩
    | none => ⟨.failed, tr.attemptsMade⟩

/-! ### Dictionary (insertion-ordered association list) lemmas -/

theorem dictLookup_dictInsert_self (m : List (Option Int × Int))
    (k : Option Int) (v : Int) : dictLookup (dictInsert m k v) k = some v := by
  induction m with
  | nil => simp [dictInsert, dictLookup]
  | cons p rest ih =>
    obtain ⟨k', v'⟩ := p
    by_cases h : k' = k
    · simp [dictInsert, dictLookup, h]
    · simp [dictInsert, dictLookup, h, ih]

theorem dictLookup_dictInsert_ne (m : List (Option Int × Int))
    {k q : Option Int} (v : Int) (h : q ≠ k) :
    dictLookup (dictInsert m k v) q = dictLookup m q := by
  induction m with
  | nil => simp [dictInsert, dictLookup, Ne.symm h]
  | cons p rest ih =>
    obtain ⟨k', v'⟩ := p
    by_cases hk : k' = k
    · subst hk
      simp [dictInsert, dictLookup, Ne.symm h]
    · by_cases hq : k' = q <;> simp [dictInsert, dictLookup, hk, hq, ih, h]

theorem dictInsert_mem {m : List (Option Int × Int)} {k k' : Option Int}
    {v v' : Int} (h : (k', v') ∈ dictInsert m k v) :
    (k', v') = (k, v) ∨ (k', v') ∈ m := by
  induction m with
  | nil => simpa [dictInsert] using h
  | cons p rest ih =>
    obtain ⟨k₀, v₀⟩ := p
    by_cases hk : k₀ = k
    · simp only [dictInsert, if_pos hk] at h
      rcases List.mem_cons.mp h with h | h
      · exact Or.inl h
      · exact Or.inr (List.mem_cons_of_mem _ h)
    · simp only [dictInsert, if_neg hk] at h
      rcases List.mem_cons.mp h with h | h
      · exact Or.inr (by rw [h]; exact List.mem_cons_self _ _)
      · rcases ih h with h | h
        · exact Or.inl h
        · exact Or.inr (List.mem_cons_of_mem _ h)

theorem dictInsert_keys (m : List (Option Int × Int)) (k : Option Int)
    (v : Int) :
    (dictInsert m k v).map Prod.fst =
      if k ∈ m.map Prod.fst then m.map Prod.fst
      else m.map Prod.fst ++ [k] := by
  induction m with
  | nil => simp [dictInsert]
  | cons p rest ih =>
    obtain ⟨k', v'⟩ := p
    by_cases h : k' = k
    · simp [dictInsert, h, List.mem_cons]
    · by_cases hm : k ∈ rest.map Prod.fst <;>
        simp [dictInsert, h, ih, hm, List.mem_cons, Ne.symm h]

theorem dictInsert_keys_nodup {m : List (Option Int × Int)}
    (k : Option Int) (v : Int) (h : (m.map Prod.fst).Nodup) :
    ((dictInsert m k v).map Prod.fst).Nodup := by
  rw [dictInsert_keys]
  split
  · exact h
  · next hnot =>
    refine h.append (List.nodup_singleton k) ?_
    intro a ha hb
    rw [List.mem_singleton] at hb
    exact hnot (by rwa [hb] at ha)

/-! ### Reconciler characterization -/

theorem updatesLoop_keys_nodup (data : List (Option Media)) :
    ∀ (l : List SeriesProgress) (i : Nat) (upd : List (Option Int × Int)),
    (upd.map Prod.fst).Nodup →
    ((updatesLoop data i upd l).map Prod.fst).Nodup := by
  intro l
  induction l with
  | nil => intro i upd h; simpa [updatesLoop] using h
  | cons s rest ih =>
    intro i upd h
    simp only [updatesLoop]
    rcases hm : aliasGet data i with _ | m
    · exact ih _ _ h
    · by_cases hgt : s.episode_number > m.currentProgress
      · simp only [if_pos hgt]
        exact ih _ _ (dictInsert_keys_nodup _ _ h)
      · simp only [if_neg hgt]
        exact ih _ _ h

/-- The key fact about the reconciliation loop: looking up key `k` in the
finished dict yields the episode number of the last record that resolved to a
media with id `k` and strictly exceeded its current progress; an untouched key
falls back to the initial accumulator. -/
theorem updatesLoop_dictLookup (data : List (Option Media)) :
    ∀ (l : List SeriesProgress) (i : Nat) (upd : List (Option Int × Int))
      (k : Option Int),
    dictLookup (updatesLoop data i upd l) k =
      (lastEligibleTarget data i l k).or (dictLookup upd k) := by
  intro l
  induction l with
  | nil => intro i upd k; simp [updatesLoop, lastEligibleTarget]
  | cons s rest ih =>
    intro i upd k
    simp only [updatesLoop, lastEligibleTarget]
    rcases hm : aliasGet data i with _ | m
    · rw [ih]
      cases lastEligibleTarget data (i + 1) rest k <;> simp
    · by_cases hgt : s.episode_number > m.currentProgress
      · simp only [if_pos hgt]
        rw [ih]
        cases hrest : lastEligibleTarget data (i + 1) rest k with
        | some v => simp
        | none =>
          by_cases hid : m.id = k
          · subst hid
            simp [hgt, dictLookup_dictInsert_self]
          · simp [hid, dictLookup_dictInsert_ne _ _ (Ne.symm hid)]
      · simp only [if_neg hgt]
        rw [ih]
        cases lastEligibleTarget data (i + 1) rest k with
        | some v => simp
        | none => simp [hgt]

theorem updates_to_apply_dictLookup (distinct_series : List SeriesProgress)
    (data : List (Option Media)) (k : Option Int) :
    dictLookup (updates_to_apply distinct_series data) k =
      lastEligibleTarget data 0 distinct_series k := by
  rw [updates_to_apply, updatesLoop_dictLookup]
  simp [dictLookup, Option.or_none]

theorem lastEligibleTarget_eq_none (data : List (Option Media)) :
    ∀ (l : List SeriesProgress) (i : Nat) (k : Option Int),
    (∀ j sj mj, l[j]? = some sj → aliasGet data (i + j) = some mj →
      mj.id ≠ k) →
    lastEligibleTarget data i l k = none := by
  intro l
  induction l with
  | nil => intro i k _; rfl
  | cons s rest ih =>
    intro i k h
    simp only [lastEligibleTarget]
    rw [ih (i + 1) k ?_]
    · rcases hm : aliasGet data i with _ | m
      · rfl
      · have hne : m.id ≠ k := h 0 s m (by simp) hm
        simp [hne]
    · intro j sj mj hj hmj
      refine h (j + 1) sj mj (by simpa using hj) ?_
      rw [show i + (j + 1) = (i + 1) + j from by omega]
      exact hmj

theorem lastEligibleTarget_unique (data : List (Option Media)) :
    ∀ (l : List SeriesProgress) (i i₀ : Nat) (s : SeriesProgress) (m : Media),
    l[i₀]? = some s → aliasGet data (i + i₀) = some m →
    (∀ j sj mj, l[j]? = some sj → aliasGet data (i + j) = some mj →
      mj.id = m.id → j = i₀) →
    lastEligibleTarget data i l m.id =
      if s.episode_number > m.currentProgress then some s.episode_number
      else none := by
  intro l
  induction l with
  | nil => intro i i₀ s m hs; simp at hs
  | cons a rest ih =>
    intro i i₀ s m hs hm huniq
    simp only [lastEligibleTarget]
    cases i₀ with
    | zero =>
      have hsa : a = s := by simpa using hs
      subst hsa
      have hnone : lastEligibleTarget data (i + 1) rest m.id = none := by
        apply lastEligibleTarget_eq_none
        intro j sj mj hj hmj heq
        have h0 := huniq (j + 1) sj mj (by simpa using hj)
          (by rw [show i + (j + 1) = (i + 1) + j from by omega]; exact hmj) heq
        omega
      have hm0 : aliasGet data i = some m := by simpa using hm
      rw [hnone, hm0]
      by_cases hgt : a.episode_number > m.currentProgress
      · simp [hgt]
      · simp [hgt]
    | succ j₀ =>
      have hs' : rest[j₀]? = some s := by simpa using hs
      have hm' : aliasGet data ((i + 1) + j₀) = some m := by
        rw [show (i + 1) + j₀ = i + (j₀ + 1) from by omega]; exact hm
      have huniq' : ∀ j sj mj, rest[j]? = some sj →
          aliasGet data ((i + 1) + j) = some mj → mj.id = m.id → j = j₀ := by
        intro j sj mj hj hmj heq
        have h0 := huniq (j + 1) sj mj (by simpa using hj)
          (by rw [show i + (j + 1) = (i + 1) + j from by omega]; exact hmj) heq
        omega
      rw [ih (i + 1) j₀ s m hs' hm' huniq']
      by_cases hgt : s.episode_number > m.currentProgress
      · simp [hgt]
      · simp only [if_neg hgt]
        rcases hma : aliasGet data i with _ | ma
        · rfl
        · have hne : ma.id ≠ m.id := by
            intro heq
            have h0 := huniq 0 a ma (by simp) hma heq
            omega
          simp [hne]

/-- Any pair in the finished update dict originates from some input record
whose episode number strictly exceeded the current progress of its resolved
media. -/
theorem updatesLoop_mem_sound (data : List (Option Media)) :
    ∀ (l : List SeriesProgress) (i : Nat) (upd : List (Option Int × Int))
      (k : Option Int) (v : Int),
    (k, v) ∈ updatesLoop data i upd l →
    (k, v) ∈ upd ∨ ∃ j s m, l[j]? = some s ∧ aliasGet data (i + j) = some m ∧
      m.id = k ∧ v = s.episode_number ∧
      s.episode_number > m.currentProgress := by
  intro l
  induction l with
  | nil => intro i upd k v h; exact Or.inl (by simpa [updatesLoop] using h)
  | cons s rest ih =>
    intro i upd k v h
    simp only [updatesLoop] at h
    rcases hm : aliasGet data i with _ | m <;> simp only [hm] at h
    · rcases ih _ _ _ _ h with h | ⟨j, s', m', hj, hmj, hrest⟩
      · exact Or.inl h
      · refine Or.inr ⟨j + 1, s', m', by simpa using hj, ?_, hrest⟩
        rw [show i + (j + 1) = (i + 1) + j from by omega]
        exact hmj
    · by_cases hgt : s.episode_number > m.currentProgress
      · rw [if_pos hgt] at h
        rcases ih _ _ _ _ h with h | ⟨j, s', m', hj, hmj, hrest⟩
        · rcases dictInsert_mem h with h | h
          · rcases Prod.mk.injEq .. ▸ h with ⟨hk, hv⟩
            exact Or.inr ⟨0, s, m, by simp, hm, hk.symm ▸ rfl, hv ▸ rfl,
              hv ▸ hgt⟩
          · exact Or.inl h
        · refine Or.inr ⟨j + 1, s', m', by simpa using hj, ?_, hrest⟩
          rw [show i + (j + 1) = (i + 1) + j from by omega]
          exact hmj
      · rw [if_neg hgt] at h
        rcases ih _ _ _ _ h with h | ⟨j, s', m', hj, hmj, hrest⟩
        · exact Or.inl h
        · refine Or.inr ⟨j + 1, s', m', by simpa using hj, ?_, hrest⟩
          rw [show i + (j + 1) = (i + 1) + j from by omega]
          exact hmj

theorem updatesLoop_nil_data :
    ∀ (l : List SeriesProgress) (i : Nat) (upd : List (Option Int × Int)),
    updatesLoop [] i upd l = upd := by
  intro l
  induction l with
  | nil => intro i upd; rfl
  | cons s rest ih => intro i upd; simp [updatesLoop, aliasGet, ih]

/-! ### History reduction lemmas -/

theorem mem_insertDesc {a e : HistoryEntry} {l : List HistoryEntry} :
    a ∈ insertDesc e l ↔ a = e ∨ a ∈ l := by
  induction l with
  | nil => simp [insertDesc]
  | cons x xs ih =>
    by_cases h : entryEpisodeKey x ≤ entryEpisodeKey e
    · simp [insertDesc, h, List.mem_cons]
    · simp only [insertDesc, if_neg h, List.mem_cons, ih]
      tauto

theorem mem_sortedByEpisodeDesc {a : HistoryEntry} :
    ∀ {l : List HistoryEntry}, a ∈ sortedByEpisodeDesc l ↔ a ∈ l := by
  intro l
  induction l with
  | nil => simp [sortedByEpisodeDesc]
  | cons x xs ih => simp [sortedByEpisodeDesc, mem_insertDesc, ih]

theorem insertDesc_pairwise {e : HistoryEntry} {l : List HistoryEntry}
    (h : l.Pairwise (fun a b => entryEpisodeKey b ≤ entryEpisodeKey a)) :
    (insertDesc e l).Pairwise
      (fun a b => entryEpisodeKey b ≤ entryEpisodeKey a) := by
  induction l with
  | nil => simp [insertDesc]
  | cons x xs ih =>
    rcases List.pairwise_cons.mp h with ⟨hx, hxs⟩
    by_cases hc : entryEpisodeKey x ≤ entryEpisodeKey e
    · rw [insertDesc, if_pos hc]
      refine List.pairwise_cons.mpr ⟨?_, h⟩
      intro b hb
      rcases List.mem_cons.mp hb with rfl | hb
      · exact hc
      · exact le_trans (hx b hb) hc
    · rw [insertDesc, if_neg hc]
      refine List.pairwise_cons.mpr ⟨?_, ih hxs⟩
      intro b hb
      rcases mem_insertDesc.mp hb with rfl | hb
      · exact le_of_not_le hc
      · exact hx b hb

theorem sortedByEpisodeDesc_pairwise : ∀ l : List HistoryEntry,
    (sortedByEpisodeDesc l).Pairwise
      (fun a b => entryEpisodeKey b ≤ entryEpisodeKey a) := by
  intro l
  induction l with
  | nil => simp [sortedByEpisodeDesc]
  | cons x xs ih => exact insertDesc_pairwise ih

/-- In a descending-sorted list, the first entry satisfying the predicate has
the greatest key among all entries satisfying it. -/
theorem find?_first_fully_watched_max :
    ∀ {l : List HistoryEntry} {e : HistoryEntry},
    l.Pairwise (fun a b => entryEpisodeKey b ≤ entryEpisodeKey a) →
    l.find? isFullyWatched = some e →
    ∀ e' ∈ l, isFullyWatched e' = true →
      entryEpisodeKey e' ≤ entryEpisodeKey e := by
  intro l
  induction l with
  | nil => intro e _ h; simp at h
  | cons a rest ih =>
    intro e hp hf e' he' hw
    rcases List.pairwise_cons.mp hp with ⟨ha, hrest⟩
    by_cases hwa : isFullyWatched a = true
    · rw [List.find?_cons_of_pos _ hwa] at hf
      injection hf with hf
      subst hf
      rcases List.mem_cons.mp he' with rfl | he'
      · exact le_refl _
      · exact ha e' he'
    · rw [List.find?_cons_of_neg _ hwa] at hf
      rcases List.mem_cons.mp he' with rfl | he'
      · exact absurd hw hwa
      · exact ih hrest hf e' he' hw

/-- Everything `reduceGroup` guarantees about a produced record: it carries
the group's title, its chosen entry is a fully watched member of the group,
and its episode number is that entry's — the maximum over the group's fully
watched entries. -/
theorem reduceGroup_eq_some {title : String} {es : List HistoryEntry}
    {sp : SeriesProgress} (h : reduceGroup title es = some sp) :
    sp.series_title = title ∧ sp.entry ∈ es ∧
    isFullyWatched sp.entry = true ∧
    sp.episode_number = entryEpisodeKey sp.entry ∧
    ∀ e ∈ es, isFullyWatched e = true →
      entryEpisodeKey e ≤ sp.episode_number := by
  simp only [reduceGroup] at h
  rcases hf : (sortedByEpisodeDesc es).find? isFullyWatched with _ | e <;>
    simp only [hf] at h
  · exact Option.noConfusion h
  · injection h with h
    subst h
    refine ⟨rfl, ?_, List.find?_some hf, rfl, ?_⟩
    · exact mem_sortedByEpisodeDesc.mp (List.mem_of_find?_eq_some hf)
    · intro e' he' hw
      exact find?_first_fully_watched_max (sortedByEpisodeDesc_pairwise es)
        hf e' (mem_sortedByEpisodeDesc.mpr he') hw

theorem reduceGroup_isSome {title : String} {es : List HistoryEntry}
    (h : ∃ e ∈ es, isFullyWatched e = true) :
    ∃ sp, reduceGroup title es = some sp := by
  obtain ⟨e, he, hw⟩ := h
  rcases hf : (sortedByEpisodeDesc es).find? isFullyWatched with _ | e'
  · rw [List.find?_eq_none] at hf
    exact absurd hw (hf e (mem_sortedByEpisodeDesc.mpr he))
  · exact ⟨⟨title, entryEpisodeKey e', e'⟩, by simp [reduceGroup, hf]⟩

theorem reduceGroup_eq_none {title : String} {es : List HistoryEntry}
    (h : ∀ e ∈ es, isFullyWatched e = false) :
    reduceGroup title es = none := by
  have hf : (sortedByEpisodeDesc es).find? isFullyWatched = none := by
    rw [List.find?_eq_none]
    intro x hx
    simp [h x (mem_sortedByEpisodeDesc.mp hx)]
  simp [reduceGroup, hf]

/-! ### Grouping key lemmas -/

theorem insertEntry_keys (m : List (String × List HistoryEntry)) (t : String)
    (e : HistoryEntry) :
    (insertEntry m t e).map Prod.fst =
      if t ∈ m.map Prod.fst then m.map Prod.fst
      else m.map Prod.fst ++ [t] := by
  induction m with
  | nil => simp [insertEntry]
  | cons p rest ih =>
    obtain ⟨k, v⟩ := p
    by_cases h : k = t
    · simp [insertEntry, h, List.mem_cons]
    · by_cases hm : t ∈ rest.map Prod.fst <;>
        simp [insertEntry, h, ih, hm, List.mem_cons, Ne.symm h]

theorem insertEntry_keys_nodup {m : List (String × List HistoryEntry)}
    {t : String} {e : HistoryEntry} (h : (m.map Prod.fst).Nodup) :
    ((insertEntry m t e).map Prod.fst).Nodup := by
  rw [insertEntry_keys]
  split
  · exact h
  · next hnot =>
    refine h.append (List.nodup_singleton t) ?_
    intro a ha hb
    rw [List.mem_singleton] at hb
    exact hnot (by rwa [hb] at ha)

/-- The `series_entries` dict never holds the same title twice. -/
theorem groupBySeries_keys_nodup (history : List HistoryEntry) :
    ((groupBySeries history).map Prod.fst).Nodup := by
  suffices h : ∀ (l : List HistoryEntry)
      (m : List (String × List HistoryEntry)), (m.map Prod.fst).Nodup →
      (((l.foldl (fun m e =>
        match ingestKey e with
        | none => m
        | some t => insertEntry m t e) m)).map Prod.fst).Nodup by
    exact h history [] (by simp)
  intro l
  induction l with
  | nil => intro m hm; simpa using hm
  | cons x xs ih =>
    intro m hm
    simp only [List.foldl_cons]
    rcases hk : ingestKey x with _ | t <;> simp only [hk]
    · exact ih m hm
    · exact ih _ (insertEntry_keys_nodup hm)

theorem keys_nodup_assoc_unique {m : List (String × List HistoryEntry)}
    (h : (m.map Prod.fst).Nodup) {t : String} {a b : List HistoryEntry}
    (ha : (t, a) ∈ m) (hb : (t, b) ∈ m) : a = b := by
  induction m with
  | nil => simp at ha
  | cons p rest ih =>
    obtain ⟨k, v⟩ := p
    simp only [List.map_cons] at h
    rcases List.nodup_cons.mp h with ⟨hk, hrest⟩
    rcases List.mem_cons.mp ha with ha' | ha'
    · rcases List.mem_cons.mp hb with hb' | hb'
      · injection ha' with ha1 ha2
        injection hb' with hb1 hb2
        rw [ha2, hb2]
      · injection ha' with ha1 ha2
        subst ha1
        exact absurd (show t ∈ List.map Prod.fst rest from
          List.mem_map.mpr ⟨(t, b), hb', rfl⟩) hk
    · rcases List.mem_cons.mp hb with hb' | hb'
      · injection hb' with hb1 hb2
        subst hb1
        exact absurd (show t ∈ List.map Prod.fst rest from
          List.mem_map.mpr ⟨(t, a), ha', rfl⟩) hk
      · exact ih hrest ha' hb'

theorem mem_noFullyWatchedWarnings {history : List HistoryEntry} {t : String}
    {es : List HistoryEntry} (hmem : (t, es) ∈ groupBySeries history)
    (hred : reduceGroup t es = none) :
    t ∈ noFullyWatchedWarnings history := by
  apply List.mem_filterMap.mpr
  exact ⟨(t, es), hmem, by simp [hred]⟩

theorem distinct_titles_ne {history : List HistoryEntry} {t : String}
    {es : List HistoryEntry} (hmem : (t, es) ∈ groupBySeries history)
    (hred : reduceGroup t es = none) :
    ∀ sp ∈ get_distinct_series_latest_completed history,
      sp.series_title ≠ t := by
  intro sp hsp heq
  rcases List.mem_filterMap.mp hsp with ⟨⟨t', es'⟩, hmem', hred'⟩
  have ht' : sp.series_title = t' := (reduceGroup_eq_some hred').1
  have htt : t' = t := by rw [← ht', heq]
  subst htt
  have hes : es' = es :=
    keys_nodup_assoc_unique (groupBySeries_keys_nodup history) hmem' hmem
  rw [hes, hred] at hred'
  exact Option.noConfusion hred'

theorem distinct_titles_sublist (gs : List (String × List HistoryEntry)) :
    ((gs.filterMap (fun p => reduceGroup p.1 p.2)).map
        SeriesProgress.series_title).Sublist (gs.map Prod.fst) := by
  induction gs with
  | nil => simp
  | cons p rest ih =>
    obtain ⟨t, es⟩ := p
    rcases hred : reduceGroup t es with _ | sp <;>
      simp only [List.filterMap_cons, hred, List.map_cons]
    · exact ih.cons t
    · rw [(reduceGroup_eq_some hred).1]
      exact ih.cons₂ t

/-- Distinct series titles of a reduced history are pairwise distinct. -/
theorem distinct_titles_nodup (history : List HistoryEntry) :
    ((get_distinct_series_latest_completed history).map
      SeriesProgress.series_title).Nodup :=
  (groupBySeries_keys_nodup history).sublist
    (distinct_titles_sublist (groupBySeries history))

/-! ### Claims -/

/-- C1, counterexample: two `SeriesProgress` records (episodes 7 then 5, in
that processing order) resolving to the same AniList id 42 with remote
progress 0 merge into the single command `(42, 5)` — dict assignment is
last-write-wins — whereas the claim demands the maximum, 7. -/
theorem c1_counterexample :
    updates_to_apply
      [⟨"Shingeki no Kyojin", 7, ⟨some ⟨some ⟨some "Shingeki no Kyojin", some 7⟩⟩, some true⟩⟩,
       ⟨"Attack on Titan", 5, ⟨some ⟨some ⟨some "Attack on Titan", some 5⟩⟩, some true⟩⟩]
      [some ⟨some 42, none⟩, some ⟨some 42, none⟩] = [(some 42, 5)] ∧
    max (7 : Int) 5 = 7 ∧ (5 : Int) ≠ 7 := by
  refine ⟨rfl, by norm_num, by norm_num⟩

/-- C1, amended: colliding `SeriesProgress` records still produce exactly one
`UpdateCommand` per external id (the dict keys are pairwise distinct), but its
`target_progress` is that of the LAST processed colliding record whose
progress exceeds the resolved remote progress (last-write-wins), not the
maximum — so the merged value does depend on processing order. -/
theorem c1_collision_merges_last_write_wins
    (distinct_series : List SeriesProgress) (data : List (Option Media))
    (k : Option Int) :
    dictLookup (updates_to_apply distinct_series data) k =
      lastEligibleTarget data 0 distinct_series k ∧
    ((updates_to_apply distinct_series data).map Prod.fst).Nodup :=
  ⟨updates_to_apply_dictLookup distinct_series data k,
   updatesLoop_keys_nodup data distinct_series 0 [] (by simp)⟩

/-- C2: when the resolved media of distinct input records have pairwise
distinct ids (the no-collision situation C1 governs otherwise), a series with
a resolved media gets an `UpdateCommand` — keyed by its id, carrying its
episode number — if and only if its latest completed episode strictly exceeds
the resolved current remote progress; equal or lower values leave the key
absent. -/
theorem c2_update_iff_strictly_greater
    (distinct_series : List SeriesProgress) (data : List (Option Media))
    (hids : ∀ i j mi mj, i < j → j < distinct_series.length →
      aliasGet data i = some mi → aliasGet data j = some mj →
      mi.id ≠ mj.id) :
    ∀ i s m, distinct_series[i]? = some s → aliasGet data i = some m →
      dictLookup (updates_to_apply distinct_series data) m.id =
        if s.episode_number > m.currentProgress then some s.episode_number
        else none := by
  intro i s m hs hm
  rw [updates_to_apply_dictLookup]
  refine lastEligibleTarget_unique data distinct_series 0 i s m hs
    (by simpa using hm) ?_
  intro j sj mj hj hmj heq
  by_contra hne
  have hj' : aliasGet data j = some mj := by simpa using hmj
  have hjlen : j < distinct_series.length := (List.getElem?_eq_some_iff.mp hj).1
  have hilen : i < distinct_series.length := (List.getElem?_eq_some_iff.mp hs).1
  rcases Nat.lt_or_ge j i with hlt | hge
  · exact hids j i mj m hlt hilen hj' hm heq
  · have hij : i < j := Nat.lt_of_le_of_ne hge (fun e => hne e.symm)
    exact hids i j m mj hij hjlen hm hj' heq.symm

/-- C2, witness: one series at episode 3 against remote progress 1 yields the
command `(1 ↦ 3)`. -/
theorem c2_update_iff_strictly_greater_witness :
    dictLookup (updates_to_apply [⟨"A", 3, ⟨none, none⟩⟩]
      [some ⟨some 1, some ⟨some 1⟩⟩]) (some 1) = some 3 := by
  have h := c2_update_iff_strictly_greater
    [⟨"A", 3, ⟨none, none⟩⟩] [some ⟨some 1, some ⟨some 1⟩⟩]
    (by intro i j mi mj hij hj _ _; simp at hj; omega)
    0 ⟨"A", 3, ⟨none, none⟩⟩ ⟨some 1, some ⟨some 1⟩⟩ rfl rfl
  simpa [Media.currentProgress] using h

theorem make_request_go_rate_limited {α : Type}
    (net : Nat → NetResult α) (delay : Nat)
    (hrl : ∀ a, ∃ v, net a = .response 429 v) :
    ∀ (remaining attempt : Nat) (sleeps : List Nat), 1 ≤ attempt →
    make_request_go net delay attempt remaining sleeps =
      ⟨none, sleeps ++ List.replicate remaining delay,
        attempt - 1 + remaining, true⟩ := by
  intro remaining
  induction remaining with
  | zero => intro attempt sleeps _; simp [make_request_go]
  | succ n ih =>
    intro attempt sleeps h
    obtain ⟨v, hv⟩ := hrl attempt
    simp only [make_request_go, hv, if_pos rfl]
    rw [ih (attempt + 1) (sleeps ++ [delay]) (by omega)]
    have h1 : attempt + 1 - 1 + n = attempt - 1 + (n + 1) := by omega
    rw [h1, List.append_assoc]
    rfl

theorem make_request_go_attempts_le {α : Type}
    (net : Nat → NetResult α) (delay : Nat) :
    ∀ (remaining attempt : Nat) (sleeps : List Nat),
    (make_request_go net delay attempt remaining sleeps).attemptsMade ≤
      attempt - 1 + remaining := by
  intro remaining
  induction remaining with
  | zero => intro attempt sleeps; simp [make_request_go]
  | succ n ih =>
    intro attempt sleeps
    simp only [make_request_go]
    rcases hnet : net attempt with ⟨status, v⟩ | _
    · by_cases h429 : status = 429
      · simp only [if_pos h429]
        have := ih (attempt + 1) (sleeps ++ [delay])
        omega
      · simp only [if_neg h429]
        split <;> simp <;> omega
    · simp
      omega

/-- C3: a series group with at least one fully watched entry reduces to a
`SeriesProgress` whose `episode_number` is the highest episode number among
the group's FULLY WATCHED entries (not the highest overall); in particular
entries {3 unwatched, 2 watched, 1 watched} reduce to episode 2. -/
theorem c3_latest_completed_is_max_fully_watched :
    (∀ (title : String) (es : List HistoryEntry) (sp : SeriesProgress),
      reduceGroup title es = some sp →
      sp.entry ∈ es ∧ isFullyWatched sp.entry = true ∧
      sp.episode_number = entryEpisodeKey sp.entry ∧
      ∀ e ∈ es, isFullyWatched e = true →
        entryEpisodeKey e ≤ sp.episode_number) ∧
    (∀ (title : String) (es : List HistoryEntry),
      (∃ e ∈ es, isFullyWatched e = true) →
      ∃ sp, reduceGroup title es = some sp) ∧
    get_distinct_series_latest_completed
      [⟨some ⟨some ⟨some "S", some 3⟩⟩, some false⟩,
       ⟨some ⟨some ⟨some "S", some 2⟩⟩, some true⟩,
       ⟨some ⟨some ⟨some "S", some 1⟩⟩, some true⟩] =
      [⟨"S", 2, ⟨some ⟨some ⟨some "S", some 2⟩⟩, some true⟩⟩] := by
  refine ⟨?_, ?_, by decide⟩
  · intro title es sp h
    obtain ⟨-, h2, h3, h4, h5⟩ := reduceGroup_eq_some h
    exact ⟨h2, h3, h4, h5⟩
  · intro title es h
    exact reduceGroup_isSome h

/-- C3, witness: the spec's own three-entry scenario, through `reduceGroup`:
the chosen entry is a member of the group, fully watched, with episode 2, and
every fully watched entry has episode number at most 2. -/
theorem c3_latest_completed_is_max_fully_watched_witness :
    reduceGroup "S"
      [⟨some ⟨some ⟨some "S", some 3⟩⟩, some false⟩,
       ⟨some ⟨some ⟨some "S", some 2⟩⟩, some true⟩,
       ⟨some ⟨some ⟨some "S", some 1⟩⟩, some true⟩] =
      some ⟨"S", 2, ⟨some ⟨some ⟨some "S", some 2⟩⟩, some true⟩⟩ ∧
    (⟨some ⟨some ⟨some "S", some 2⟩⟩, some true⟩ : HistoryEntry) ∈
      [⟨some ⟨some ⟨some "S", some 3⟩⟩, some false⟩,
       ⟨some ⟨some ⟨some "S", some 2⟩⟩, some true⟩,
       ⟨some ⟨some ⟨some "S", some 1⟩⟩, some true⟩] :=
  ⟨by decide,
   (c3_latest_completed_is_max_fully_watched.1 "S"
     [⟨some ⟨some ⟨some "S", some 3⟩⟩, some false⟩,
      ⟨some ⟨some ⟨some "S", some 2⟩⟩, some true⟩,
      ⟨some ⟨some ⟨some "S", some 1⟩⟩, some true⟩]
     ⟨"S", 2, ⟨some ⟨some ⟨some "S", some 2⟩⟩, some true⟩⟩ (by decide)).1⟩

/-- C4: a series group whose entries are all not fully watched yields no
`SeriesProgress`, lands in the warning log, never appears in the distinct
list, and consequently every emitted `UpdateCommand` originates from a
`SeriesProgress` of some other series title. -/
theorem c4_all_unwatched_series_excluded (history : List HistoryEntry)
    (t : String) (es : List HistoryEntry)
    (hmem : (t, es) ∈ groupBySeries history)
    (hall : ∀ e ∈ es, isFullyWatched e = false) :
    reduceGroup t es = none ∧
    t ∈ noFullyWatchedWarnings history ∧
    (∀ sp ∈ get_distinct_series_latest_completed history,
      sp.series_title ≠ t) ∧
    (∀ (data : List (Option Media)) (k : Option Int) (v : Int),
      (k, v) ∈ updates_to_apply
        (get_distinct_series_latest_completed history) data →
      ∃ sp ∈ get_distinct_series_latest_completed history,
        sp.series_title ≠ t ∧ v = sp.episode_number) := by
  have hred : reduceGroup t es = none := reduceGroup_eq_none hall
  refine ⟨hred, mem_noFullyWatchedWarnings hmem hred,
    distinct_titles_ne hmem hred, ?_⟩
  intro data k v hkv
  rcases updatesLoop_mem_sound data
      (get_distinct_series_latest_completed history) 0 [] k v hkv with
    h | ⟨j, s, m', hj, _, _, hv, _⟩
  · simp at h
  · have hs : s ∈ get_distinct_series_latest_completed history :=
      List.getElem?_mem hj
    exact ⟨s, hs, distinct_titles_ne hmem hred s hs, hv⟩

/-- C4, witness: a series whose two entries are unwatched (flag false resp.
missing) generates the warning. -/
theorem c4_all_unwatched_series_excluded_witness :
    (("W", [(⟨some ⟨some ⟨some "W", some 3⟩⟩, some false⟩ : HistoryEntry),
            ⟨some ⟨some ⟨some "W", some 1⟩⟩, none⟩]) ∈
      groupBySeries [⟨some ⟨some ⟨some "W", some 3⟩⟩, some false⟩,
                     ⟨some ⟨some ⟨some "W", some 1⟩⟩, none⟩]) ∧
    (∀ e ∈ [(⟨some ⟨some ⟨some "W", some 3⟩⟩, some false⟩ : HistoryEntry),
            ⟨some ⟨some ⟨some "W", some 1⟩⟩, none⟩],
      isFullyWatched e = false) ∧
    "W" ∈ noFullyWatchedWarnings
      [⟨some ⟨some ⟨some "W", some 3⟩⟩, some false⟩,
       ⟨some ⟨some ⟨some "W", some 1⟩⟩, none⟩] :=
  ⟨by decide, by decide,
   (c4_all_unwatched_series_excluded
     [⟨some ⟨some ⟨some "W", some 3⟩⟩, some false⟩,
      ⟨some ⟨some ⟨some "W", some 1⟩⟩, none⟩] "W"
     [⟨some ⟨some ⟨some "W", some 3⟩⟩, some false⟩,
      ⟨some ⟨some ⟨some "W", some 1⟩⟩, none⟩]
     (by decide) (by decide)).2.1⟩

/-- C5: the request executor, on HTTP 429, sleeps the fixed `delay` and
retries, making at most `retries` attempts in total: rate-limit signals on
attempts 1 and 2 followed by a 200 on attempt 3 return the success after
exactly two backoff sleeps of `delay` seconds each; `retries` consecutive
rate-limit signals return `None` (the Absent result) after one sleep per
attempt, with the terminal failure logged. -/
theorem c5_rate_limit_retry :
    (∀ delay : Nat,
      make_request (fun a => if a ≤ 2 then NetResult.response 429 0
        else NetResult.response 200 7) 3 delay =
        ⟨some 7, [delay, delay], 3, false⟩) ∧
    (∀ {α : Type} (net : Nat → NetResult α) (retries delay : Nat),
      (∀ a, ∃ v, net a = .response 429 v) →
      make_request net retries delay =
        ⟨none, List.replicate retries delay, retries, true⟩) ∧
    (∀ {α : Type} (net : Nat → NetResult α) (retries delay : Nat),
      (make_request net retries delay).attemptsMade ≤ retries) := by
  refine ⟨?_, ?_, ?_⟩
  · intro delay
    norm_num [make_request, make_request_go]
  · intro α net retries delay hrl
    have h := make_request_go_rate_limited net delay hrl retries 1 [] (by omega)
    simpa using h
  · intro α net retries delay
    have h := make_request_go_attempts_le net delay retries 1 []
    simpa using h

/-- C5, witness: a network that always answers HTTP 429 exhausts
`retries = 2` attempts with two sleeps of 5 seconds and the terminal
failure logged. -/
theorem c5_rate_limit_retry_witness :
    (∀ a : Nat, ∃ v : Nat,
      (fun _ => (NetResult.response 429 0 : NetResult Nat)) a =
        NetResult.response 429 v) ∧
    make_request (fun _ => (NetResult.response 429 0 : NetResult Nat)) 2 5 =
      ⟨none, [5, 5], 2, true⟩ := by
  refine ⟨fun _ => ⟨0, rfl⟩, ?_⟩
  have h := c5_rate_limit_retry.2.1
    (fun _ => (NetResult.response 429 0 : NetResult Nat)) 2 5
    (fun _ => ⟨0, rfl⟩)
  simpa using h

/-- C6: an empty update mapping short-circuits `batch_update_anilist_progress`
with the "no updates needed" outcome and zero network attempts. -/
theorem c6_empty_updates_short_circuit (α : Type)
    (net : List (String × Option Int) → Nat → NetResult α)
    (retries delay : Nat) :
    batch_update_anilist_progress net retries delay [] =
      ⟨.noUpdatesNeeded, 0⟩ := rfl

/-- C7: a missing/null `mediaListEntry` — and a missing `progress` inside one
— defaults the current remote progress to 0, and the reconciler then decides
the update against 0: the command is emitted iff the episode number exceeds 0. -/
theorem c7_unknown_progress_defaults_to_zero :
    (∀ m : Media, m.mediaListEntry = none → m.currentProgress = 0) ∧
    (∀ (m : Media) (e : MediaListEntry), m.mediaListEntry = some e →
      e.progress = none → m.currentProgress = 0) ∧
    (∀ (s : SeriesProgress) (m : Media), m.mediaListEntry = none →
      updates_to_apply [s] [some m] =
        if s.episode_number > 0 then [(m.id, s.episode_number)] else []) := by
  refine ⟨?_, ?_, ?_⟩
  · intro m h; simp [Media.currentProgress, h]
  · intro m e hm hp; simp [Media.currentProgress, hm, hp]
  · intro s m h
    have h0 : m.currentProgress = 0 := by simp [Media.currentProgress, h]
    have hred : updates_to_apply [s] [some m] =
        if s.episode_number > m.currentProgress
        then [(m.id, s.episode_number)] else [] := rfl
    rw [hred, h0]

/-- C7, witness: remote progress unknown (`mediaListEntry` null) and episode
2 produce the command `(9 ↦ 2)`. -/
theorem c7_unknown_progress_defaults_to_zero_witness :
    Media.currentProgress ⟨some 9, none⟩ = 0 ∧
    updates_to_apply [⟨"A", 2, ⟨none, none⟩⟩] [some ⟨some 9, none⟩] =
      [(some 9, 2)] := by
  refine ⟨c7_unknown_progress_defaults_to_zero.1 ⟨some 9, none⟩ rfl, ?_⟩
  have h := c7_unknown_progress_defaults_to_zero.2.2
    ⟨"A", 2, ⟨none, none⟩⟩ ⟨some 9, none⟩ rfl
  simpa using h

/-- C9: a resolution response that parses but lacks the top-level `"data"`
key makes `get_anilist_media_and_progress` log the unexpected format and
return the empty mapping instead of raising, and the reconciliation loop run
on an empty mapping produces no updates at all. -/
theorem c9_schema_mismatch_degrades_to_empty :
    (∀ (net : List (String × String) → Nat →
        NetResult (Option (List (Option Media))))
      (retries delay : Nat) (series_list : List SeriesProgress),
      (make_request (net (buildAnilistQueryVars series_list))
          retries delay).result = some none →
      (get_anilist_media_and_progress net retries delay series_list).data
          = [] ∧
      (get_anilist_media_and_progress net retries delay
          series_list).unexpectedFormatLogged = true) ∧
    (∀ distinct_series : List SeriesProgress,
      updates_to_apply distinct_series [] = []) := by
  constructor
  · intro net retries delay l h
    constructor <;> simp [get_anilist_media_and_progress, h]
  · intro d
    exact updatesLoop_nil_data d 0 []

/-- C9, witness: a network returning HTTP 200 with a body lacking `"data"`
yields the empty mapping with the format warning logged. -/
theorem c9_schema_mismatch_degrades_to_empty_witness :
    (make_request (fun _ => (NetResult.response 200 none :
        NetResult (Option (List (Option Media))))) 3 300).result = some none ∧
    (get_anilist_media_and_progress (fun _ _ => NetResult.response 200 none)
        3 300 []).data = [] ∧
    (get_anilist_media_and_progress (fun _ _ => NetResult.response 200 none)
        3 300 []).unexpectedFormatLogged = true :=
  ⟨rfl, c9_schema_mismatch_degrades_to_empty.1
    (fun _ _ => NetResult.response 200 none) 3 300 [] rfl⟩

/-- C8: identity resolution plus the stored-progress lookup always issue
exactly one batched request (aliasing every title into one query), however
many series the input holds; and on the pipeline's distinct-series list each
title is carried by that single request at most once — within a run no title
is ever looked up twice. -/
theorem c8_single_round_trip_no_duplicate_lookups :
    (∀ (net : List (String × String) → Nat →
        NetResult (Option (List (Option Media))))
      (retries delay : Nat) (series_list : List SeriesProgress),
      (get_anilist_media_and_progress net retries delay
        series_list).requestsIssued = [buildAnilistQueryVars series_list]) ∧
    (∀ (net : List (String × String) → Nat →
        NetResult (Option (List (Option Media))))
      (retries delay : Nat) (history : List HistoryEntry),
      ∀ req ∈ (get_anilist_media_and_progress net retries delay
        (get_distinct_series_latest_completed history)).requestsIssued,
      (req.map Prod.snd).Nodup) := by
  have h1 : ∀ (net : List (String × String) → Nat →
      NetResult (Option (List (Option Media))))
      (retries delay : Nat) (series_list : List SeriesProgress),
      (get_anilist_media_and_progress net retries delay
        series_list).requestsIssued = [buildAnilistQueryVars series_list] := by
    intro net retries delay l
    unfold get_anilist_media_and_progress
    split <;> rfl
  refine ⟨h1, ?_⟩
  intro net retries delay history req hreq
  rw [h1, List.mem_singleton] at hreq
  subst hreq
  have h2 : (buildAnilistQueryVars
      (get_distinct_series_latest_completed history)).map Prod.snd =
      (get_distinct_series_latest_completed history).map
        SeriesProgress.series_title := by
    have h3 := List.enum_map_snd (get_distinct_series_latest_completed history)
    calc ((get_distinct_series_latest_completed history).enum.map
            (fun p => ("title" ++ toString p.1, p.2.series_title))).map
            Prod.snd
        = ((get_distinct_series_latest_completed history).enum.map
            Prod.snd).map SeriesProgress.series_title := by
          rw [List.map_map, List.map_map]; rfl
      _ = (get_distinct_series_latest_completed history).map
            SeriesProgress.series_title := by rw [h3]
  rw [h2]
  exact distinct_titles_nodup history

/-- C8, witness: a one-series history resolves through a single issued
request carrying its title once. -/
theorem c8_single_round_trip_no_duplicate_lookups_witness :
    ([("title0", "S")] ∈ (get_anilist_media_and_progress
      (fun _ _ => NetResult.response 200 (some [])) 3 300
      (get_distinct_series_latest_completed
        [⟨some ⟨some ⟨some "S", some 2⟩⟩, some true⟩])).requestsIssued) ∧
    (([("title0", "S")] : List (String × String)).map Prod.snd).Nodup :=
  ⟨by decide,
   c8_single_round_trip_no_duplicate_lookups.2
     (fun _ _ => NetResult.response 200 (some [])) 3 300
     [⟨some ⟨some ⟨some "S", some 2⟩⟩, some true⟩]
     [("title0", "S")] (by decide)⟩

/-- C10: a history entry with no `fully_watched` key at all counts as not
fully watched — the reducer's selected entry always carries an explicit
`fully_watched = true`, so a flag-less entry is never chosen as a series'
latest completed episode. -/
theorem c10_missing_fully_watched_defaults_false :
    (∀ e : HistoryEntry, e.fully_watched = none →
      isFullyWatched e = false) ∧
    (∀ (title : String) (es : List HistoryEntry) (sp : SeriesProgress),
      reduceGroup title es = some sp →
      sp.entry.fully_watched = some true) := by
  constructor
  · intro e h; simp [isFullyWatched, h]
  · intro title es sp h
    have hw := (reduceGroup_eq_some h).2.2.1
    unfold isFullyWatched at hw
    cases hfw : sp.entry.fully_watched with
    | none => rw [hfw] at hw; simp at hw
    | some b => rw [hfw] at hw; simp at hw; rw [hw]

/-- C10, witness: with the flag missing on the episode-9 entry, the reducer
skips it and selects the flagged episode-2 entry. -/
theorem c10_missing_fully_watched_defaults_false_witness :
    isFullyWatched ⟨some ⟨some ⟨some "S", some 9⟩⟩, none⟩ = false ∧
    (⟨"S", 2, ⟨some ⟨some ⟨some "S", some 2⟩⟩, some true⟩⟩ :
      SeriesProgress).entry.fully_watched = some true :=
  ⟨c10_missing_fully_watched_defaults_false.1
    ⟨some ⟨some ⟨some "S", some 9⟩⟩, none⟩ rfl,
   c10_missing_fully_watched_defaults_false.2 "S"
     [⟨some ⟨some ⟨some "S", some 9⟩⟩, none⟩,
      ⟨some ⟨some ⟨some "S", some 2⟩⟩, some true⟩]
     ⟨"S", 2, ⟨some ⟨some ⟨some "S", some 2⟩⟩, some true⟩⟩ (by decide)⟩

end CrToAnilist
